import Mathlib

/-!
Verification model of the PolyLSP multiplexing LSP client hub.

The definitions below are a shallow embedding of the repository's core:

* `src/utils/textEdit.ts` — `offsetAt`, `applyContentChange`,
  `validateTextEdit`, `compareRangeReverse`, `applyTextEdits`;
* `src/utils/uri.ts` — `normalizeUri` (both the full normalizer and the
  older basic variant);
* `src/core/polyClient.ts` (current variant) — the document store, adapter
  registry, routing, workspace-edit engine and disposal;
* `src/adapters/typescript.ts` — the JSON-RPC request-id counter.

Modelling conventions:

* JavaScript strings are Lean `String`s manipulated through their
  character lists (`String.data`), which matches UTF-16 handling for the
  ASCII inputs exercised here.
* Dynamically-typed JavaScript values are modelled with `Option`
  (`none` = absent / wrong runtime type) or small inductive types with a
  `notObject` constructor.
* Thrown `PolyClientError`s are modelled with `Except ErrorCode`; the
  error code mirrors the `code` field of the thrown error.
* In-place mutation is modelled by explicit state passing; every client
  operation returns the post-state even on the error path, so statements
  about "state unchanged on failure" are meaningful.
* Wall-clock timestamps (`openedAt`, `registeredAt`, `initializedAt`) and
  deep copies (`cloneValue`, `cloneDocument` — identity in a pure model)
  are not modelled.
-/

/-- Error codes of `PolyClientError` (src/errors.ts callers). -/
inductive ErrorCode where
  | invalidOptions
  | invalidAdapter
  | languageExists
  | invalidUri
  | invalidPosition
  | invalidChange
  | invalidChanges
  | invalidEdit
  | invalidVersion
  | unknownLanguage
  | documentNotOpen
  | languageNotResolved
  | languageNotReady
  | languageFailed
  | featureUnsupported
  | clientDisposed
  | invalidListener
  | invalidNotification
  | invalidEventKind
  deriving DecidableEq, Repr

/-! ## JavaScript string primitives (character-list based) -/

/-- `text.split(c)` for a single-character separator, on char lists. -/
def splitOnChar (c : Char) : List Char → List (List Char)
  | [] => [[]]
  | x :: xs =>
    let r := splitOnChar c xs
    if x = c then [] :: r
    else
      match r with
      | [] => [[x]]
      | h :: t => (x :: h) :: t

/-- JavaScript whitespace for `String.prototype.trim` (ASCII fragment). -/
def isJsWhitespace (c : Char) : Bool :=
  c = ' ' ∨ c = '\t' ∨ c = '\n' ∨ c = '\r' ∨ c = '\x0b' ∨ c = '\x0c'

/-- `s.trim()`. -/
def jsTrim (s : String) : String :=
  String.mk (((s.data.dropWhile isJsWhitespace).reverse.dropWhile isJsWhitespace).reverse)

/-- `s.slice(0, a) + mid + s.slice(b)`: the splice used by the edit code. -/
def jsSplice (s : String) (a b : Nat) (mid : String) : String :=
  String.mk (s.data.take a ++ mid.data ++ s.data.drop b)

/-! ## Text positions, ranges, edits (src/utils/textEdit.ts)

A position field that is absent or not a number is `none`; a `range`,
`start` or `end` that is absent (falsy) is `none` at the outer `Option`.
The `end` field is called `stop` because `end` is a Lean keyword. -/

structure PosJS where
  line : Option Int
  character : Option Int
  deriving DecidableEq, Repr

structure RangeJS where
  start : Option PosJS
  stop : Option PosJS
  deriving DecidableEq, Repr

/-- A raw `TextEdit` value as received from JavaScript callers. -/
inductive TextEditJS where
  | notObject
  | obj (range : Option RangeJS) (newText : Option String)
  deriving DecidableEq, Repr

/-- A raw content change (`DocumentChange`) value. -/
inductive ChangeJS where
  | notObject
  | obj (text : Option String) (range : Option RangeJS)
  deriving DecidableEq, Repr

/-- `offsetAt(text, position)` from src/utils/textEdit.ts: split by LF,
count each line with an implicit trailing LF, clamp the character to the
line length and an out-of-range line to end of text; reject a falsy
position or non-numeric or negative coordinates with `InvalidPosition`. -/
def offsetAt (text : String) (pos : Option PosJS) : Except ErrorCode Nat :=
  match pos with
  | none => .error .invalidPosition
  | some p =>
    match p.line, p.character with
    | some l, some c =>
      if l < 0 ∨ c < 0 then .error .invalidPosition
      else
        let lines := splitOnChar '\n' text.data
        if (lines.length : Int) ≤ l then .ok text.data.length
        else
          let ln := l.toNat
          let offset := ((lines.take ln).map (fun s => s.length + 1)).sum
          let lineStr := lines.getD ln []
          .ok (offset + min c.toNat lineStr.length)
    | _, _ => .error .invalidPosition

/-- `applyContentChange(text, change)`: full-text replacement when no
range is given, otherwise splice the range. -/
def applyContentChange (text : String) (change : ChangeJS) : Except ErrorCode String :=
  match change with
  | .notObject => .error .invalidChange
  | .obj t r =>
    match t with
    | none => .error .invalidChange
    | some newText =>
      match r with
      | none => .ok newText
      | some range => do
        let s ← offsetAt text range.start
        let e ← offsetAt text range.stop
        .ok (jsSplice text s e newText)

/-- A text edit that passed `validateTextEdit`: the range object and its
`start`/`end` members exist and `newText` is a string. -/
structure ValidEdit where
  start : PosJS
  stop : PosJS
  newText : String
  deriving DecidableEq, Repr

/-- `validateTextEdit(edit)`: require an object with a truthy `range`,
truthy `range.start` and `range.end`, and a string `newText`. -/
def validateTextEdit (edit : TextEditJS) : Except ErrorCode ValidEdit :=
  match edit with
  | .notObject => .error .invalidEdit
  | .obj r t =>
    match r with
    | none => .error .invalidEdit
    | some range =>
      match range.start, range.stop with
      | some st, some en =>
        match t with
        | some s => .ok ⟨st, en, s⟩
        | none => .error .invalidEdit
      | _, _ => .error .invalidEdit

/-- The value of the JavaScript comparator
`(b.range.start.line - a.range.start.line) || (b.range.start.character - a.range.start.character)`:
`none` models `NaN` (which is falsy, so a `NaN` line difference falls
through to the character difference). -/
def compareRangeReverse (a b : ValidEdit) : Option Int :=
  let charDiff : Option Int :=
    match b.start.character, a.start.character with
    | some bc, some ac => some (bc - ac)
    | _, _ => none
  match b.start.line, a.start.line with
  | some bl, some al => if bl - al = 0 then charDiff else some (bl - al)
  | _, _ => charDiff

/-- The "may come first" relation induced by the comparator under the
ECMAScript `SortCompare` rules (a `NaN` or zero result keeps order). -/
def leRev (a b : ValidEdit) : Bool :=
  match compareRangeReverse a b with
  | some v => decide (v ≤ 0)
  | none => true

/-! A self-contained stable insertion sort models `Array.prototype.sort`,
which is required to be stable; for the consistent comparators arising
from numeric ranges any stable sort produces the same list. -/

def jsOrderedInsert (le : α → α → Bool) (a : α) : List α → List α
  | [] => [a]
  | b :: bs => if le a b then a :: b :: bs else b :: jsOrderedInsert le a bs

def jsSort (le : α → α → Bool) : List α → List α
  | [] => []
  | a :: l => jsOrderedInsert le a (jsSort le l)

/-- `applyTextEdits(text, edits)`: validate every edit, sort the validated
copies with the reverse comparator, then apply each in order. -/
def applyTextEdits (text : String) (edits : List TextEditJS) : Except ErrorCode String := do
  let validated ← edits.mapM validateTextEdit
  let sorted := jsSort leRev validated
  sorted.foldlM
    (fun res e => do
      let s ← offsetAt res (some e.start)
      let en ← offsetAt res (some e.stop)
      pure (jsSplice res s en e.newText))
    text

/-! ## URI normalization (src/utils/uri.ts)

The full normalizer calls two Node.js library functions: `path.resolve`
(working-directory dependent) and the WHATWG `new URL` parser.  Both are
passed in through a `UriEnv` record; concrete instantiations used in
witnesses are stubs that agree with Node.js on the inputs they are
applied to. -/

/-- One uppercase hexadecimal digit. -/
def hexDigit (n : Nat) : Char :=
  if n < 10 then Char.ofNat (48 + n) else Char.ofNat (55 + n)

/-- `%XX` encoding of one UTF-8 byte. -/
def percentEncodeByte (b : UInt8) : List Char :=
  ['%', hexDigit (b.toNat / 16), hexDigit (b.toNat % 16)]

/-- Characters `encodeURI` leaves unescaped. -/
def encodeURIKeeps (c : Char) : Bool :=
  c.isAlphanum ∨
    c ∈ [';', ',', '/', '?', ':', '@', '&', '=', '+', '$', '-', '_', '.',
         '!', '~', '*', '(', ')', '#', Char.ofNat 39]

/-- ECMAScript `encodeURI`. -/
def encodeURI (s : String) : String :=
  String.mk
    ((s.data.map fun c =>
        if encodeURIKeeps c then [c]
        else (String.utf8EncodeChar c).map percentEncodeByte |>.flatten).flatten)

/-- A parsed WHATWG URL, just detailed enough for the normalizer: the
serialization is the concatenation of the five components and the
`file:` branch rewrites `pathname` and clears `hash`. -/
structure URLRec where
  protocol : String
  authority : String
  pathname : String
  search : String
  hash : String
  deriving DecidableEq, Repr

def urlToString (u : URLRec) : String :=
  String.mk (u.protocol.data ++ u.authority.data ++ u.pathname.data ++ u.search.data ++ u.hash.data)

/-- The Node.js library functions the normalizer depends on. -/
structure UriEnv where
  resolve : String → String
  urlParse : String → Option URLRec

/-- Regex `^([a-zA-Z]):[\\/]` (WINDOWS_DRIVE_REGEX). -/
def isWindowsDrivePath (s : String) : Bool :=
  match s.data with
  | a :: ':' :: c :: _ => a.isAlpha ∧ (c = '/' ∨ c = '\\')
  | _ => false

def isSchemeChar (c : Char) : Bool :=
  c.isAlphanum ∨ c = '+' ∨ c = '.' ∨ c = '-'

def schemeScan : List Char → Bool
  | [] => false
  | c :: rest => if c = ':' then true else if isSchemeChar c then schemeScan rest else false

/-- Regex `^[a-zA-Z][a-zA-Z0-9+.-]*:`. -/
def hasScheme (s : String) : Bool :=
  match s.data with
  | c :: rest => c.isAlpha ∧ schemeScan rest
  | [] => false

/-- `ensureFileUriFromPath(input)`: resolve, flip backslashes, prepend a
slash when missing, and percent-encode via `encodeURI`. -/
def ensureFileUriFromPath (env : UriEnv) (input : String) : String :=
  let absolute := env.resolve input
  let normalizedPath := String.mk (absolute.data.map fun c => if c = '\\' then '/' else c)
  String.mk
    ("file://".data ++ (if normalizedPath.data.head? = some '/' then [] else ['/']) ++
      (encodeURI normalizedPath).data)

/-- `pathname.match(/^\/([a-zA-Z]):/)` rewrite: uppercase the drive. -/
def upcaseDrivePathname (p : String) : String :=
  match p.data with
  | '/' :: d :: ':' :: rest => if d.isAlpha then String.mk ('/' :: d.toUpper :: ':' :: rest) else p
  | _ => p

/-- `normalizeUri(uri)` — the full normalizer (newer src/utils/uri.ts). -/
def normalizeUri (env : UriEnv) (uri : Option String) : Except ErrorCode String :=
  match uri with
  | none => .error .invalidUri
  | some u =>
    if (jsTrim u).data.length = 0 then .error .invalidUri
    else
      let trimmed := jsTrim u
      if isWindowsDrivePath trimmed then .ok (ensureFileUriFromPath env trimmed)
      else if ¬ hasScheme trimmed then .ok (ensureFileUriFromPath env trimmed)
      else
        match env.urlParse trimmed with
        | none => .error .invalidUri
        | some parsed =>
          if parsed.protocol = "file:" then
            let pathname := String.mk (parsed.pathname.data.map fun c => if c = '\\' then '/' else c)
            .ok (urlToString { parsed with pathname := upcaseDrivePathname pathname, hash := "" })
          else .ok (urlToString parsed)

/-- `normalizeUri(uri)` — the older basic variant (src/utils/uri.ts at
the conventional path): only require a non-empty string. -/
def normalizeUriBasic (uri : Option String) : Except ErrorCode String :=
  match uri with
  | none => .error .invalidUri
  | some u => if u.data.length = 0 then .error .invalidUri else .ok u

/-! ## The PolyClient model (src/core/polyClient.ts, current variant)

The client is parameterized by `norm : NormFn`, the URI normalizer it
imports from `src/utils/uri.ts`.  JavaScript `Map`s are insertion-ordered
association lists; `alSet` replaces in place or appends, matching
`Map.prototype.set`.  Handler closures are modelled by presence flags
plus emitted `AdapterCall` events; listener closures are modelled by
numeric identifiers. -/

abbrev NormFn := String → Except ErrorCode String

def alGet {α : Type} : List (String × α) → String → Option α
  | [], _ => none
  | p :: rest, k => if p.1 = k then some p.2 else alGet rest k

def alSet {α : Type} : List (String × α) → String → α → List (String × α)
  | [], k, v => [(k, v)]
  | p :: rest, k, v => if p.1 = k then (k, v) :: rest else p :: alSet rest k v

def alDelete {α : Type} : List (String × α) → String → List (String × α)
  | [], _ => []
  | p :: rest, k => if p.1 = k then rest else p :: alDelete rest k

inductive AdapterState where
  | registering
  | initializing
  | ready
  | failed
  | disposed
  deriving DecidableEq, Repr

/-- Which handlers the adapter's handler table defines.  `features` holds
the names of the defined routed feature handlers (getCompletions, …). -/
structure HandlersSpec where
  openDocument : Bool
  updateDocument : Bool
  closeDocument : Bool
  sendRequest : Bool
  sendNotification : Bool
  shutdown : Bool
  features : List String
  deriving DecidableEq, Repr

/-- The payload handed to an adapter handler. -/
inductive CallPayload where
  | openDoc (uri languageId text : String) (version : Int)
  | updateDoc (uri languageId : String) (version : Int) (text : String) (changes : List ChangeJS)
  | closeDoc (uri : String)
  | request (method : String)
  deriving DecidableEq, Repr

/-- One invocation of an adapter handler. -/
structure AdapterCall where
  languageId : String
  operation : String
  payload : CallPayload
  deriving DecidableEq, Repr

/-- An entry of an adapter record's `operationQueue`. -/
structure QueuedOp where
  operation : String
  payload : CallPayload
  deriving DecidableEq, Repr

structure AdapterRec where
  languageId : String
  state : AdapterState
  handlers : HandlersSpec
  operationQueue : List QueuedOp
  disposables : List Nat
  hasDisposeFn : Bool
  deriving DecidableEq, Repr

structure TextDoc where
  uri : String
  languageId : String
  text : String
  version : Int
  deriving DecidableEq, Repr

structure ClientState where
  languages : List (String × AdapterRec)
  documents : List (String × TextDoc)
  diagnosticListeners : List (String × List Nat)
  workspaceListeners : List (String × List Nat)
  notificationListeners : List (String × List Nat)
  errorListeners : List Nat
  disposables : List Nat
  disposed : Bool
  deriving DecidableEq, Repr

/-- `callAdapterHandler`: queue during `registering`/`initializing`,
drop unless `ready`, otherwise invoke the handler. -/
def callAdapterHandler (rec : AdapterRec) (hasHandler : Bool) (operation : String)
    (payload : CallPayload) : AdapterRec × List AdapterCall :=
  if ¬ hasHandler then (rec, [])
  else if rec.state = .registering ∨ rec.state = .initializing then
    ({ rec with operationQueue := rec.operationQueue ++ [⟨operation, payload⟩] }, [])
  else if rec.state ≠ .ready then (rec, [])
  else (rec, [⟨rec.languageId, operation, payload⟩])

/-- `callAdapterHandler` with the source's undefined-record guard. -/
def callAdapterOpt (rec? : Option AdapterRec) (hasHandler : Bool) (operation : String)
    (payload : CallPayload) : Option AdapterRec × List AdapterCall :=
  match rec? with
  | none => (none, [])
  | some r =>
    let (r', cs) := callAdapterHandler r hasHandler operation payload
    (some r', cs)

/-- `flushQueuedOperations(record, error?)`: splice the whole queue; on
failure report each entry on the error channel, otherwise invoke each
queued handler in order.  The third component is the list of
`(operation, languageId)` adapter-error events. -/
def flushQueuedOperations (rec : AdapterRec) (failed : Bool) :
    AdapterRec × List AdapterCall × List (String × String) :=
  if rec.operationQueue.isEmpty then (rec, [], [])
  else
    let queue := rec.operationQueue
    let rec' := { rec with operationQueue := [] }
    if failed then (rec', [], queue.map fun q => (q.operation, rec.languageId))
    else (rec', queue.map (fun q => ⟨rec.languageId, q.operation, q.payload⟩), [])

/-- The `.then` continuation of an asynchronous `initialize` in
`registerLanguage`: mark the record ready and flush its queue. -/
def resolveInitThen (rec : AdapterRec) : AdapterRec × List AdapterCall :=
  let rec1 := { rec with state := AdapterState.ready }
  let (rec2, calls, _) := flushQueuedOperations rec1 false
  (rec2, calls)

/-- Store an updated adapter record back into the languages map (the
source mutates the shared record object in place). -/
def setRecord (s : ClientState) (rec? : Option AdapterRec) : ClientState :=
  match rec? with
  | none => s
  | some r => { s with languages := alSet s.languages r.languageId r }

/-- JavaScript `version >>> 0`. -/
def toUint32 (v : Int) : Int := v.emod 4294967296

structure OpenArgs where
  uri : String
  languageId : String
  text : Option String
  version : Int
  deriving DecidableEq, Repr

/-- `PolyClient.openDocument`. -/
def openDocument (norm : NormFn) (s : ClientState) (a : OpenArgs) :
    ClientState × List AdapterCall × Except ErrorCode TextDoc :=
  if s.disposed then (s, [], .error .clientDisposed)
  else
    match norm a.uri with
    | .error e => (s, [], .error e)
    | .ok normalizedUri =>
      if (alGet s.languages a.languageId).isNone then (s, [], .error .unknownLanguage)
      else
        let doc : TextDoc :=
          { uri := normalizedUri, languageId := a.languageId,
            text := a.text.getD "", version := toUint32 a.version }
        let s1 := { s with documents := alSet s.documents normalizedUri doc }
        let rec? := alGet s1.languages a.languageId
        let hasH := match rec? with | some r => r.handlers.openDocument | none => false
        let (rec?', calls) := callAdapterOpt rec? hasH "openDocument"
          (.openDoc normalizedUri a.languageId doc.text doc.version)
        (setRecord s1 rec?', calls, .ok doc)

structure UpdateArgs where
  uri : String
  version : Option Int
  changes : Option (List ChangeJS)
  deriving DecidableEq, Repr

/-- `PolyClient.updateDocument` (current variant: an empty change list is
accepted and only bumps the version). -/
def updateDocument (norm : NormFn) (s : ClientState) (a : UpdateArgs) :
    ClientState × List AdapterCall × Except ErrorCode TextDoc :=
  if s.disposed then (s, [], .error .clientDisposed)
  else
    match norm a.uri with
    | .error e => (s, [], .error e)
    | .ok normalizedUri =>
      match alGet s.documents normalizedUri with
      | none => (s, [], .error .documentNotOpen)
      | some doc =>
        match a.version with
        | none => (s, [], .error .invalidVersion)
        | some version =>
          if version ≤ doc.version then (s, [], .error .invalidVersion)
          else
            match a.changes with
            | none => (s, [], .error .invalidChanges)
            | some changes =>
              match changes.foldlM applyContentChange doc.text with
              | .error e => (s, [], .error e)
              | .ok text =>
                let doc2 :=
                  { doc with text := if changes.isEmpty then doc.text else text,
                             version := version }
                let s1 := { s with documents := alSet s.documents normalizedUri doc2 }
                let outgoingChanges :=
                  if changes.isEmpty then [ChangeJS.obj (some doc2.text) none] else changes
                let rec? := alGet s1.languages doc2.languageId
                let hasH := match rec? with | some r => r.handlers.updateDocument | none => false
                let (rec?', calls) := callAdapterOpt rec? hasH "updateDocument"
                  (.updateDoc doc2.uri doc2.languageId doc2.version doc2.text outgoingChanges)
                (setRecord s1 rec?', calls, .ok doc2)

/-- `PolyClient.closeDocument`. -/
def closeDocument (norm : NormFn) (s : ClientState) (uri : String) :
    ClientState × List AdapterCall × Except ErrorCode Bool :=
  if s.disposed then (s, [], .error .clientDisposed)
  else
    match norm uri with
    | .error e => (s, [], .error e)
    | .ok normalizedUri =>
      match alGet s.documents normalizedUri with
      | some doc =>
        let rec? := alGet s.languages doc.languageId
        let hasH := match rec? with | some r => r.handlers.closeDocument | none => false
        let (rec?', calls) := callAdapterOpt rec? hasH "closeDocument" (.closeDoc normalizedUri)
        let s1 := setRecord s rec?'
        ({ s1 with documents := alDelete s1.documents normalizedUri }, calls, .ok true)
      | none => (s, [], .ok false)

/-! ## Routing (resolveLanguageFromParams and callers) -/

structure SubDocJS where
  languageId : Option String
  uri : Option String
  deriving DecidableEq, Repr

structure LeftJS where
  textDocument : Option SubDocJS
  deriving DecidableEq, Repr

structure ParamsBag where
  languageId : Option String
  language : Option String
  textDocument : Option SubDocJS
  document : Option SubDocJS
  uri : Option String
  left : Option LeftJS
  deriving DecidableEq, Repr

/-- Host-call params: either not a structured object or a property bag.
A field that is absent or not a string is `none`. -/
inductive Params where
  | notObject
  | bag (b : ParamsBag)
  deriving DecidableEq, Repr

/-- The empty bag: a `\x7b\x7d` params object. -/
def emptyBag : ParamsBag := ⟨none, none, none, none, none, none⟩

/-- `extractLanguageId`: `languageId`, `language`,
`textDocument.languageId`, `document.languageId`, in that order. -/
def extractLanguageId (b : ParamsBag) : Option String :=
  match b.languageId with
  | some s => some s
  | none =>
    match b.language with
    | some s => some s
    | none =>
      match b.textDocument.bind (·.languageId) with
      | some s => some s
      | none => b.document.bind (·.languageId)

/-- `tryNormalizeUri`: `null` for a non-string or empty input or a
normalization failure. -/
def tryNormalizeUri (norm : NormFn) (uri : Option String) : Option String :=
  match uri with
  | none => none
  | some s => if s.data.length = 0 then none else (norm s).toOption

/-- `extractUri`: the first of `uri`, `textDocument.uri`, `document.uri`,
`left.textDocument.uri` that normalizes. -/
def extractUri (norm : NormFn) (b : ParamsBag) : Option String :=
  [b.uri, b.textDocument.bind (·.uri), b.document.bind (·.uri),
   (b.left.bind (·.textDocument)).bind (·.uri)].findSome? (tryNormalizeUri norm)

/-- `resolveLanguageFromParams` (current, throwing variant). -/
def resolveLanguageFromParams (norm : NormFn) (s : ClientState) (p : Params) :
    Except ErrorCode AdapterRec :=
  match p with
  | .notObject =>
    match s.languages with
    | [only] => .ok only.2
    | _ => .error .languageNotResolved
  | .bag b =>
    match extractLanguageId b with
    | some lid =>
      match alGet s.languages lid with
      | none => .error .unknownLanguage
      | some r => .ok r
    | none =>
      match extractUri norm b with
      | some uriN =>
        match alGet s.documents uriN with
        | none => .error .documentNotOpen
        | some d =>
          match alGet s.languages d.languageId with
          | none => .error .unknownLanguage
          | some r => .ok r
      | none =>
        match s.languages with
        | [only] => .ok only.2
        | _ => .error .languageNotResolved

/-- `assertLanguageReady`. -/
def assertLanguageReady (rec : AdapterRec) : Except ErrorCode Unit :=
  match rec.state with
  | .ready => .ok ()
  | .failed => .error .languageFailed
  | .disposed => .error .unknownLanguage
  | _ => .error .languageNotReady

/-- `PolyClient.sendRequest`. -/
def sendRequest (norm : NormFn) (s : ClientState) (method : String) (p : Params) :
    ClientState × List AdapterCall × Except ErrorCode Unit :=
  if s.disposed then (s, [], .error .clientDisposed)
  else
    match resolveLanguageFromParams norm s p with
    | .error e => (s, [], .error e)
    | .ok rec =>
      match assertLanguageReady rec with
      | .error e => (s, [], .error e)
      | .ok _ =>
        if rec.handlers.sendRequest then
          (s, [⟨rec.languageId, "sendRequest", .request method⟩], .ok ())
        else (s, [], .error .featureUnsupported)

/-- `PolyClient.sendNotification`. -/
def sendNotificationOp (norm : NormFn) (s : ClientState) (method : String) (p : Params) :
    ClientState × List AdapterCall × Except ErrorCode Unit :=
  if s.disposed then (s, [], .error .clientDisposed)
  else
    match resolveLanguageFromParams norm s p with
    | .error e => (s, [], .error e)
    | .ok rec =>
      match assertLanguageReady rec with
      | .error e => (s, [], .error e)
      | .ok _ =>
        if rec.handlers.sendNotification then
          (s, [⟨rec.languageId, "sendNotification", .request method⟩], .ok ())
        else (s, [], .error .featureUnsupported)

/-- `PolyClient.forward` — the shared body of the feature requests
(getCompletions, getHover, …). -/
def forward (norm : NormFn) (s : ClientState) (handlerName : String) (p : Params) :
    ClientState × List AdapterCall × Except ErrorCode Unit :=
  if s.disposed then (s, [], .error .clientDisposed)
  else
    match resolveLanguageFromParams norm s p with
    | .error e => (s, [], .error e)
    | .ok rec =>
      match assertLanguageReady rec with
      | .error e => (s, [], .error e)
      | .ok _ =>
        if rec.handlers.features.contains handlerName then
          (s, [⟨rec.languageId, handlerName, .request handlerName⟩], .ok ())
        else (s, [], .error .featureUnsupported)

/-! ## Subscriptions and event fan-out -/

/-- `getOrCreateSet` + `Set.add` (src/utils/maps.ts). -/
def addListener (table : List (String × List Nat)) (key : String) (lid : Nat) :
    List (String × List Nat) :=
  match alGet table key with
  | some set => alSet table key (if set.contains lid then set else set ++ [lid])
  | none => alSet table key [lid]

/-- `PolyClient.onDiagnostics` (listener closures are ids; the
`typeof listener` check is subsumed by typing). -/
def onDiagnostics (norm : NormFn) (s : ClientState) (uri : String) (lid : Nat) :
    ClientState × Except ErrorCode Unit :=
  if s.disposed then (s, .error .clientDisposed)
  else
    match norm uri with
    | .error e => (s, .error e)
    | .ok normalizedUri =>
      ({ s with diagnosticListeners := addListener s.diagnosticListeners normalizedUri lid }, .ok ())

/-- `PolyClient.onNotification`. -/
def onNotification (s : ClientState) (method : String) (lid : Nat) :
    ClientState × Except ErrorCode Unit :=
  if s.disposed then (s, .error .clientDisposed)
  else if method.data.length = 0 then (s, .error .invalidNotification)
  else ({ s with notificationListeners := addListener s.notificationListeners method lid }, .ok ())

/-- `PolyClient.onWorkspaceEvent`. -/
def onWorkspaceEvent (s : ClientState) (kind : String) (lid : Nat) :
    ClientState × Except ErrorCode Unit :=
  if s.disposed then (s, .error .clientDisposed)
  else if kind.data.length = 0 then (s, .error .invalidEventKind)
  else ({ s with workspaceListeners := addListener s.workspaceListeners kind lid }, .ok ())

/-- `PolyClient.onError`. -/
def onError (s : ClientState) (lid : Nat) : ClientState × Except ErrorCode Unit :=
  if s.disposed then (s, .error .clientDisposed)
  else ({ s with errorListeners := if s.errorListeners.contains lid then s.errorListeners
                                   else s.errorListeners ++ [lid] }, .ok ())

/-- `emitDiagnostics`: the listeners that fire for a publication. -/
def emitDiagnostics (norm : NormFn) (s : ClientState) (uri : String) :
    Except ErrorCode (List Nat) :=
  match norm uri with
  | .error e => .error e
  | .ok normalizedUri => .ok ((alGet s.diagnosticListeners normalizedUri).getD [])

/-- `emitWorkspace`: the listeners that fire for a workspace event. -/
def emitWorkspace (s : ClientState) (kind : String) : Except ErrorCode (List Nat) :=
  if kind.data.length = 0 then .error .invalidEventKind
  else .ok ((alGet s.workspaceListeners kind).getD [])

/-- `notifyClient`: the notification listeners that fire for a method. -/
def notifyClientListeners (s : ClientState) (method : String) : List Nat :=
  (alGet s.notificationListeners method).getD []

/-- `emitAdapterError`: the error listeners that fire. -/
def emitAdapterErrorListeners (s : ClientState) : List Nat := s.errorListeners

/-! ## Registration and disposal -/

inductive RegOutcome where
  | completed (languageId : String)
  | pendingInit (languageId : String)
  deriving DecidableEq, Repr

/-- The shape of a `registerLanguage` argument: `hasInit` abstracts
`resolveInitialize` finding an init function on the adapter or its
handler table; `initAsync` tells whether that function returns a
thenable. -/
inductive AdapterArg where
  | notObject
  | spec (languageId : String) (handlers : HandlersSpec) (hasInit initAsync hasDisposeFn : Bool)
  deriving DecidableEq, Repr

/-- `PolyClient.registerLanguage` up to its first suspension point: the
asynchronous continuation is `resolveInitThen`. -/
def registerLanguage (s : ClientState) (a : AdapterArg) :
    ClientState × List AdapterCall × Except ErrorCode RegOutcome :=
  if s.disposed then (s, [], .error .clientDisposed)
  else
    match a with
    | .notObject => (s, [], .error .invalidAdapter)
    | .spec lid handlers hasInit initAsync hasDisp =>
      if lid.data.length = 0 then (s, [], .error .invalidAdapter)
      else if (alGet s.languages lid).isSome then (s, [], .error .languageExists)
      else
        let rec0 : AdapterRec :=
          { languageId := lid, state := .registering, handlers := handlers,
            operationQueue := [], disposables := [], hasDisposeFn := hasDisp }
        if ¬ hasInit ∨ ¬ initAsync then
          let rec1 := { rec0 with state := AdapterState.ready }
          let (rec2, calls, _) := flushQueuedOperations rec1 false
          ({ s with languages := alSet s.languages lid rec2 }, calls, .ok (.completed lid))
        else
          ({ s with languages := alSet s.languages lid { rec0 with state := AdapterState.initializing } },
            [], .ok (.pendingInit lid))

/-- `finalizeDispose`: clear every table. -/
def finalizeDispose (s : ClientState) : ClientState :=
  { s with languages := [], documents := [], diagnosticListeners := [],
           workspaceListeners := [], notificationListeners := [],
           errorListeners := [], disposed := true }

/-- The `(label, languageId)` cleanup calls of `runRecordDisposables`. -/
def runRecordDisposablesEv (rec : AdapterRec) : List (String × String) :=
  (rec.disposables.map fun _ => ("dispose", rec.languageId)) ++
    (if rec.handlers.shutdown then [("shutdown", rec.languageId)] else []) ++
    (if rec.hasDisposeFn then [("dispose", rec.languageId)] else [])

/-- `PolyClient.dispose`: a no-op when already disposed, otherwise run
client disposables, drain every record, and clear all tables. -/
def dispose (s : ClientState) : ClientState × List (String × String) :=
  if s.disposed then (s, [])
  else
    let clientEvents := s.disposables.map fun _ => ("dispose", "client")
    let recordEvents := (s.languages.map fun p => runRecordDisposablesEv p.2).flatten
    (finalizeDispose { s with disposed := true }, clientEvents ++ recordEvents)

/-! ## Workspace-edit engine (`PolyClient.applyWorkspaceEdit`) -/

/-- The `reason` string of a recorded failure (each constructor stands
for one of the literal messages or for the `message` of a caught
`PolyClientError`). -/
inductive Reason where
  | missingTdeUri
  | documentNotOpen
  | rangeMissing
  | invalidRename
  | unsupportedKind (kind : String)
  | thrown (e : ErrorCode)
  deriving DecidableEq, Repr

/-- A recorded failure.  `idx` is the change index that was passed to
`recordFailure` alongside the failure (ghost data: the source failure
objects carry only `uri` and `reason`). -/
structure FailureRec where
  uri : String
  reason : Reason
  idx : Nat
  deriving DecidableEq, Repr

/-- The mutable context of one `applyWorkspaceEdit` call. -/
structure WEAcc where
  s : ClientState
  events : List AdapterCall
  failures : List FailureRec
  failedChangeIndex : Option Nat
  counter : Nat
  deriving DecidableEq, Repr

/-- `recordFailure(uri, reason, index)`. -/
def recordFailure (acc : WEAcc) (uri : String) (reason : Reason) (idx : Nat) : WEAcc :=
  { acc with
    failures := acc.failures ++ [⟨uri, reason, idx⟩],
    failedChangeIndex :=
      match acc.failedChangeIndex with
      | none => some idx
      | some j => some j }

/-- The edit-normalization loop of `handleTextDocumentEdit`: `none` when
some entry has no (truthy) `range`; `newText` defaults to the empty
string when absent or not a string. -/
def normalizeEditList : List TextEditJS → Option (List (RangeJS × String))
  | [] => some []
  | item :: rest =>
    let range : Option RangeJS := match item with | .notObject => none | .obj r _ => r
    match range with
    | none => none
    | some r =>
      let newText := match item with | .notObject => "" | .obj _ t => t.getD ""
      (normalizeEditList rest).map (fun l => (r, newText) :: l)

/-- `handleTextDocumentEdit(change, index)`.  The second component is a
raised exception: an `applyTextEdits` error is re-thrown (after being
recorded) exactly when the edit package has a `documentChanges` field. -/
def handleTextDocumentEdit (norm : NormFn) (dcDefined : Bool) (acc : WEAcc)
    (tdUri : Option String) (editsField : Option (List TextEditJS)) (index : Nat) :
    WEAcc × Option ErrorCode :=
  match tdUri with
  | none => (recordFailure acc "" .missingTdeUri index, none)
  | some uri =>
    if uri.data.length = 0 then (recordFailure acc "" .missingTdeUri index, none)
    else
      match norm uri with
      | .error e => (recordFailure acc uri (.thrown e) index, none)
      | .ok normalizedUri =>
        match alGet acc.s.documents normalizedUri with
        | none => (recordFailure acc uri .documentNotOpen index, none)
        | some document =>
          let edits := editsField.getD []
          if edits.isEmpty then (acc, none)
          else
            match normalizeEditList edits with
            | none => (recordFailure acc uri .rangeMissing index, none)
            | some normalizedEdits =>
              match applyTextEdits document.text
                  (normalizedEdits.map fun e => TextEditJS.obj (some e.1) (some e.2)) with
              | .error e =>
                (recordFailure acc uri (.thrown e) index, if dcDefined then some e else none)
              | .ok newText =>
                let doc2 := { document with text := newText, version := document.version + 1 }
                let s1 := { acc.s with documents := alSet acc.s.documents normalizedUri doc2 }
                let changes := normalizedEdits.map fun e => ChangeJS.obj (some e.2) (some e.1)
                let rec? := alGet s1.languages doc2.languageId
                let hasH := match rec? with | some r => r.handlers.updateDocument | none => false
                let (rec?', calls) := callAdapterOpt rec? hasH "updateDocument"
                  (.updateDoc doc2.uri doc2.languageId doc2.version doc2.text
                    (if changes.isEmpty then [ChangeJS.obj (some doc2.text) none] else changes))
                ({ acc with s := setRecord s1 rec?', events := acc.events ++ calls }, none)

/-- One `documentChanges` entry: a primitive (skipped), a rename, an
unsupported file operation, or a text-document edit. -/
inductive DocChangeJS where
  | notObject
  | rename (oldUri newUri : Option String)
  | otherKind (kind : String) (uri : Option String)
  | tde (tdUri : Option String) (edits : Option (List TextEditJS))
  deriving DecidableEq, Repr

/-- `processChange(change, index)`. -/
def processChange (norm : NormFn) (dcDefined : Bool) (acc : WEAcc)
    (change : DocChangeJS) (index : Nat) : WEAcc × Option ErrorCode :=
  match change with
  | .notObject => (acc, none)
  | .rename oldUri? newUri? =>
    match oldUri?, newUri? with
    | some oldUri, some newUri =>
      (match norm oldUri, norm newUri with
      | .ok normalizedOld, .ok normalizedNew =>
        match alGet acc.s.documents normalizedOld with
        | none => (recordFailure acc oldUri .documentNotOpen index, none)
        | some document =>
          let docs1 := alDelete acc.s.documents normalizedOld
          let doc2 := { document with uri := normalizedNew }
          let s1 := { acc.s with documents := alSet docs1 normalizedNew doc2 }
          let rec? := alGet s1.languages doc2.languageId
          let hasClose := match rec? with | some r => r.handlers.closeDocument | none => false
          let (rec?1, closeCalls) := callAdapterOpt rec? hasClose "closeDocument" (.closeDoc normalizedOld)
          let s2 := setRecord s1 rec?1
          let rec2? := alGet s2.languages doc2.languageId
          let hasOpen := match rec2? with | some r => r.handlers.openDocument | none => false
          let (rec?2, openCalls) := callAdapterOpt rec2? hasOpen "openDocument"
            (.openDoc normalizedNew doc2.languageId doc2.text doc2.version)
          ({ acc with s := setRecord s2 rec?2, events := acc.events ++ closeCalls ++ openCalls }, none)
      | .error e, _ => (recordFailure acc oldUri (.thrown e) index, none)
      | .ok _, .error e => (recordFailure acc oldUri (.thrown e) index, none))
    | _, _ => (recordFailure acc (oldUri?.getD (newUri?.getD "")) .invalidRename index, none)
  | .otherKind kind uri? => (recordFailure acc (uri?.getD "") (.unsupportedKind kind) index, none)
  | .tde tdUri edits => handleTextDocumentEdit norm dcDefined acc tdUri edits index

/-- The `documentChanges.forEach` loop inside the `try` block: a thrown
exception aborts the loop (skipping that entry's counter increment) and
is swallowed by the surrounding `catch`. -/
def processDCList (norm : NormFn) (dcDefined : Bool) (acc : WEAcc) :
    List DocChangeJS → WEAcc
  | [] => acc
  | c :: rest =>
    match processChange norm dcDefined acc c acc.counter with
    | (acc', none) => processDCList norm dcDefined { acc' with counter := acc'.counter + 1 } rest
    | (acc', some _) => acc'

/-- The `edit.changes` entries loop.  It is not wrapped in a `try`, so a
re-thrown `applyTextEdits` error propagates to the host. -/
def processChangesList (norm : NormFn) (dcDefined : Bool) (acc : WEAcc) :
    List (String × Option (List TextEditJS)) → WEAcc × Option ErrorCode
  | [] => (acc, none)
  | (uri, editsVal) :: rest =>
    match handleTextDocumentEdit norm dcDefined acc (some uri) (some (editsVal.getD []))
        acc.counter with
    | (acc', none) => processChangesList norm dcDefined { acc' with counter := acc'.counter + 1 } rest
    | (acc', some e) => (acc', some e)

/-- The `documentChanges` field: absent, defined but not an array, or an
array of changes. -/
inductive DCField where
  | absent
  | notArray
  | arr (l : List DocChangeJS)
  deriving DecidableEq, Repr

/-- The `applyWorkspaceEdit` argument. -/
inductive WorkspaceEditArg where
  | notObject
  | obj (documentChanges : DCField) (changes : Option (List (String × Option (List TextEditJS))))
  deriving DecidableEq, Repr

structure ApplyResult where
  applied : Bool
  failures : List FailureRec
  failureReason : Option Reason
  failedChange : Option Nat
  deriving DecidableEq, Repr

/-- `PolyClient.applyWorkspaceEdit`. -/
def applyWorkspaceEdit (norm : NormFn) (s : ClientState) (edit : WorkspaceEditArg) :
    ClientState × List AdapterCall × Except ErrorCode ApplyResult :=
  if s.disposed then (s, [], .error .clientDisposed)
  else
    match edit with
    | .notObject => (s, [], .error .invalidEdit)
    | .obj dc chs =>
      let dcDefined := dc ≠ DCField.absent
      let acc0 : WEAcc := ⟨s, [], [], none, 0⟩
      let acc1 := match dc with | .arr l => processDCList norm dcDefined acc0 l | _ => acc0
      let step2 := match chs with
        | some entries => processChangesList norm dcDefined acc1 entries
        | none => (acc1, none)
      match step2 with
      | (acc2, some e) => (acc2.s, acc2.events, .error e)
      | (acc2, none) =>
        let applied := acc2.failures.isEmpty
        (acc2.s, acc2.events,
          .ok { applied := applied
                failures := acc2.failures
                failureReason := if applied then none else (acc2.failures.head?).map (·.reason)
                failedChange := if applied then none else some (acc2.failedChangeIndex.getD 0) })

/-! ## JSON-RPC request ids (src/adapters/typescript.ts) -/

/-- The per-connection state of the TypeScript adapter that matters for
id generation: `let requestId = 0` plus the pending-request table. -/
structure ConnState where
  requestId : Nat
  pending : List Nat
  deriving DecidableEq, Repr

def connInit : ConnState := ⟨0, []⟩

/-- The id-allocation step of `sendRawRequest`:
`const id = ++requestId` followed by `pendingRequests.set(id, …)`. -/
def sendRawRequestId (st : ConnState) : ConnState × Nat :=
  let id := st.requestId + 1
  ({ requestId := id, pending := st.pending ++ [id] }, id)

/-- The ids carried by `n` consecutive requests on one connection. -/
def runRequestIds : Nat → ConnState → ConnState × List Nat
  | 0, st => (st, [])
  | n + 1, st =>
    let (st1, id) := sendRawRequestId st
    let (st2, ids) := runRequestIds n st1
    (st2, id :: ids)

/-! ## Claim-side definitions and fixtures -/

/-- C6's wording of edit validity: the edit has a (truthy) range with
both endpoints and a string `newText`. -/
def isValidTextEdit : TextEditJS → Bool
  | .notObject => false
  | .obj r t =>
    (match r with
     | some range => range.start.isSome && range.stop.isSome
     | none => false) && t.isSome

/-- The validated view of an edit, when valid. -/
def asValidEdit : TextEditJS → Option ValidEdit
  | .notObject => none
  | .obj r t =>
    match r with
    | none => none
    | some range =>
      match range.start, range.stop, t with
      | some st, some en, some s => some ⟨st, en, s⟩
      | _, _, _ => none

/-- Application of an already-sorted edit list, in order. -/
def applyTextEditsInOrder (text : String) (sorted : List ValidEdit) : Except ErrorCode String :=
  sorted.foldlM
    (fun res e => do
      let s ← offsetAt res (some e.start)
      let en ← offsetAt res (some e.stop)
      pure (jsSplice res s en e.newText))
    text

/-- C6 stated as written: validate every edit (else `InvalidEdit`), sort
in reverse document order, apply in that order. -/
def applyTextEditsClaim (text : String) (edits : List TextEditJS) : Except ErrorCode String :=
  if edits.all isValidTextEdit then
    applyTextEditsInOrder text (jsSort leRev (edits.filterMap asValidEdit))
  else .error .invalidEdit

/-- The `(line, character)` sort key of an edit's start position. -/
def startKey (e : ValidEdit) : Int × Int := (e.start.line.getD 0, e.start.character.getD 0)

/-- "a may precede b in reverse document order": b's start does not come
after a's start in `(line, character)` order. -/
def revDocPairOk (a b : ValidEdit) : Prop :=
  (startKey b).1 < (startKey a).1 ∨
    ((startKey b).1 = (startKey a).1 ∧ (startKey b).2 ≤ (startKey a).2)

/-- An edit whose start coordinates are actual numbers. -/
def numericStart (e : ValidEdit) : Prop := e.start.line.isSome ∧ e.start.character.isSome

/-- C7 (amended) stated as written: trim; bare or Windows-drive paths
become `file://` URIs with a percent-encoded path; inputs with a scheme
are re-emitted from the parse, with drive uppercased and fragment
stripped for `file:` URIs; empty, all-whitespace or un-parseable inputs
fail with `InvalidUri`. -/
def normalizeUriClaim (env : UriEnv) (uri : Option String) : Except ErrorCode String :=
  match uri with
  | none => .error .invalidUri
  | some u =>
    let trimmed := jsTrim u
    if trimmed.data.length = 0 then .error .invalidUri
    else if isWindowsDrivePath trimmed ∨ ¬ hasScheme trimmed then
      .ok (ensureFileUriFromPath env trimmed)
    else
      match env.urlParse trimmed with
      | none => .error .invalidUri
      | some parsed =>
        if parsed.protocol = "file:" then
          .ok (urlToString
            { parsed with
              pathname := upcaseDrivePathname
                (String.mk (parsed.pathname.data.map fun c => if c = '\\' then '/' else c)),
              hash := "" })
        else .ok (urlToString parsed)

/-- Run a list of `updateDocument` calls, requiring each to succeed. -/
def runUpdates (norm : NormFn) (s : ClientState) : List UpdateArgs → Option ClientState
  | [] => some s
  | a :: rest =>
    match updateDocument norm s a with
    | (s', _, .ok _) => runUpdates norm s' rest
    | _ => none

/-- Issue a list of document-sync operations against one adapter record
through `callAdapterHandler` (each with its handler defined). -/
def issueDocSyncOps (rec : AdapterRec) : List QueuedOp → AdapterRec × List AdapterCall
  | [] => (rec, [])
  | op :: rest =>
    let (rec1, cs) := callAdapterHandler rec true op.operation op.payload
    let (rec2, cs') := issueDocSyncOps rec1 rest
    (rec2, cs ++ cs')

/-- `dispose()` called `n` times in sequence. -/
def disposeIter : Nat → ClientState → ClientState
  | 0, s => s
  | n + 1, s => (dispose (disposeIter n s)).1

/-- Invariant of the workspace-edit context: `failedChangeIndex` is the
ghost index of the first recorded failure. -/
def weInv (acc : WEAcc) : Prop :=
  acc.failedChangeIndex = acc.failures.head?.map (·.idx)

/-- A `new URL` stub agreeing with Node.js on the two inputs it is used
at: `new URL("file:///a")` parses to scheme `file:`, host-less authority
and path `/a`; `new URL("http://h/p#f")` keeps its fragment and both
serialize back to their input. -/
def urlStub : String → Option URLRec := fun s =>
  if s = "file:///a" then some ⟨"file:", "//", "/a", "", ""⟩
  else if s = "file:///missing" then some ⟨"file:", "//", "/missing", "", ""⟩
  else if s = "http://h/p#f" then some ⟨"http:", "//h", "/p", "", "#f"⟩
  else none

/-- A `path.resolve` stub: the identity, which agrees with the POSIX
`path.resolve` on already-absolute normalized paths. -/
def envStub : UriEnv := ⟨fun s => s, urlStub⟩

def normStub : NormFn := fun s => normalizeUri envStub (some s)

def handlersFull : HandlersSpec :=
  { openDocument := true, updateDocument := true, closeDocument := true,
    sendRequest := true, sendNotification := true, shutdown := false,
    features := ["getCompletions"] }

def recReady (lid : String) : AdapterRec :=
  { languageId := lid, state := .ready, handlers := handlersFull,
    operationQueue := [], disposables := [], hasDisposeFn := false }

def recWaiting (lid : String) : AdapterRec :=
  { languageId := lid, state := .initializing, handlers := handlersFull,
    operationQueue := [], disposables := [], hasDisposeFn := false }

def docA : TextDoc := { uri := "file:///a", languageId := "ts", text := "hi", version := 1 }

/-- One ready adapter `ts` with `file:///a` open at version 1. -/
def sOne : ClientState :=
  { languages := [("ts", recReady "ts")], documents := [("file:///a", docA)],
    diagnosticListeners := [], workspaceListeners := [], notificationListeners := [],
    errorListeners := [], disposables := [], disposed := false }

/-- Two ready adapters, no open documents. -/
def sTwo : ClientState :=
  { languages := [("one", recReady "one"), ("two", recReady "two")], documents := [],
    diagnosticListeners := [], workspaceListeners := [], notificationListeners := [],
    errorListeners := [], disposables := [], disposed := false }

/-! ## Helper lemmas -/

theorem alGet_alSet_self {α : Type} (m : List (String × α)) (k : String) (v : α) :
    alGet (alSet m k v) k = some v := by
  induction m with
  | nil => simp [alSet, alGet]
  | cons p rest ih =>
    by_cases h : p.1 = k
    · simp [alSet, alGet, h]
    · simp [alSet, alGet, h, ih]

theorem alSet_eq_of_alGet {α : Type} {m : List (String × α)} {k : String} {v : α}
    (h : alGet m k = some v) : alSet m k v = m := by
  induction m with
  | nil => simp [alGet] at h
  | cons p rest ih =>
    obtain ⟨k', v'⟩ := p
    by_cases hp : k' = k
    · simp [alGet, hp] at h
      simp [alSet, hp, h]
    · simp [alGet, hp] at h
      simp [alSet, hp, ih h]

theorem runRequestIds_shift (n : Nat) (k : Nat) (p : List Nat) :
    (runRequestIds n ⟨k, p⟩).2 = List.range' (k + 1) n := by
  induction n generalizing k p with
  | zero => simp [runRequestIds]
  | succ n ih => simp [runRequestIds, sendRawRequestId, ih, List.range'_succ]

/-! ## C9 — JSON-RPC request ids -/

/-- C9 counterexample: the id allocator uses `++requestId`, so the first
request of a connection carries id 1, not 0 as the claim states. -/
theorem requestId_first_id_counterexample :
    (runRequestIds 1 connInit).2 = [1] ∧ (1 : Nat) ≠ 0 := ⟨rfl, by decide⟩

/-- C9 (amended): the request ids the client generates start at 1 and
each subsequent request carries an id exactly one greater than the
previous, so over a connection's lifetime `n` requests carry ids
`1, 2, …, n` — positive integers, strictly increasing. -/
theorem requestId_sequence (n : Nat) :
    (runRequestIds n connInit).2 = List.range' 1 n :=
  runRequestIds_shift n 0 []

/-! ## C4 — routing without a hint -/

/-- C4 counterexample: with two adapters registered and no document
open, a `sendRequest` whose params carry a URI that normalizes but does
not denote an open document fails with `DocumentNotOpen`, not
`LanguageNotResolved` as the claim states. -/
theorem sendRequest_unopened_uri_counterexample :
    sendRequest normStub sTwo "ping" (Params.bag { emptyBag with uri := some "file:///a" }) =
      (sTwo, [], .error .documentNotOpen) ∧
      ErrorCode.documentNotOpen ≠ ErrorCode.languageNotResolved := ⟨by rfl, by decide⟩

/-- C4 (amended): with at least two registered adapters, a `sendRequest`
whose params carry neither a languageId (under `params.languageId`,
`params.language`, `params.textDocument.languageId`,
`params.document.languageId`) nor any URI candidate that normalizes
successfully fails with `LanguageNotResolved`, and no adapter handler is
invoked and no adapter or document state changes.  (A URI that
normalizes but is not an open document fails with `DocumentNotOpen`
instead.) -/
theorem sendRequest_unresolved_routing (norm : NormFn) (s : ClientState) (method : String)
    (b : ParamsBag) (hd : s.disposed = false) (hn : 2 ≤ s.languages.length)
    (hl : extractLanguageId b = none) (hu : extractUri norm b = none) :
    sendRequest norm s method (Params.bag b) = (s, [], .error .languageNotResolved) := by
  unfold sendRequest resolveLanguageFromParams
  rw [hd]
  simp only [Bool.false_eq_true, if_false, hl, hu]
  match hls : s.languages with
  | [] => rfl
  | [x] => rw [hls] at hn; simp at hn
  | x :: y :: rest => rfl

/-- C4 witness: the amended theorem applied to the two-adapter state and
empty params. -/
theorem sendRequest_unresolved_routing_witness :
    sendRequest normStub sTwo "ping" (Params.bag emptyBag) =
      (sTwo, [], .error .languageNotResolved) :=
  sendRequest_unresolved_routing normStub sTwo "ping" emptyBag (by rfl) (by decide)
    (by rfl) (by rfl)

/-! ## C7 — URI normalization -/

/-- C7 counterexample: an input that already has a non-`file:` scheme is
re-emitted with its fragment preserved (the normalizer clears the hash
only in its `file:` branch), contradicting the claim that normalization
strips the fragment; `envStub.urlParse` agrees with Node.js's `new URL`
on this input. -/
theorem normalizeUri_fragment_counterexample :
    normalizeUri envStub (some "http://h/p#f") = .ok "http://h/p#f" ∧
      "http://h/p#f" ≠ "http://h/p" := ⟨by rfl, by decide⟩

theorem setRecord_documents (s : ClientState) (r? : Option AdapterRec) :
    (setRecord s r?).documents = s.documents := by
  cases r? <;> simp [setRecord]

theorem setRecord_disposed (s : ClientState) (r? : Option AdapterRec) :
    (setRecord s r?).disposed = s.disposed := by
  cases r? <;> simp [setRecord]

theorem offsetAt_error_code {t : String} {p : Option PosJS} {e : ErrorCode}
    (h : offsetAt t p = .error e) : e = .invalidPosition := by
  simp only [offsetAt] at h
  repeat' split at h
  all_goals simp_all

theorem applyContentChange_error_codes {t : String} {c : ChangeJS} {e : ErrorCode}
    (h : applyContentChange t c = .error e) : e = .invalidChange ∨ e = .invalidPosition := by
  cases c with
  | notObject => simp [applyContentChange] at h; simp [h.symm]
  | obj txt r =>
    cases txt with
    | none => simp [applyContentChange] at h; simp [h.symm]
    | some newText =>
      cases r with
      | none => simp [applyContentChange] at h
      | some range =>
        simp only [applyContentChange] at h
        cases h1 : offsetAt t range.start with
        | error e1 =>
          rw [h1] at h
          have h2 : (Except.error e1 : Except ErrorCode String) = Except.error e := h
          exact Or.inr ((Except.error.inj h2).symm ▸ offsetAt_error_code h1)
        | ok sOff =>
          rw [h1] at h
          cases h2 : offsetAt t range.stop with
          | error e2 =>
            rw [h2] at h
            have h3 : (Except.error e2 : Except ErrorCode String) = Except.error e := h
            exact Or.inr ((Except.error.inj h3).symm ▸ offsetAt_error_code h2)
          | ok en =>
            rw [h2] at h
            have h3 : Except.ok (jsSplice t sOff en newText) = Except.error e := h
            cases h3

theorem foldlM_applyContentChange_error {cs : List ChangeJS} {t : String} {e : ErrorCode}
    (h : cs.foldlM applyContentChange t = .error e) :
    e = .invalidChange ∨ e = .invalidPosition := by
  induction cs generalizing t with
  | nil => simp [List.foldlM, pure, Except.pure] at h
  | cons c rest ih =>
    rw [List.foldlM_cons] at h
    cases hc : applyContentChange t c with
    | error e1 =>
      rw [hc] at h
      have h2 : (Except.error e1 : Except ErrorCode String) = Except.error e := h
      exact (Except.error.inj h2) ▸ applyContentChange_error_codes hc
    | ok t2 =>
      rw [hc] at h
      exact ih h

/-- C10: `updateDocument` is atomic on error — when a non-empty change
list fails to apply (a change that is not an object, has no string
`text`, or carries an invalid position), the call fails with
`InvalidChange` or `InvalidPosition`, the stored document text and
version are exactly as before the call, and no adapter handler is
invoked. -/
theorem updateDocument_atomic_on_invalid_change (norm : NormFn) (s : ClientState)
    (uri nUri : String) (v : Int) (cs : List ChangeJS) (doc : TextDoc) (e : ErrorCode)
    (hd : s.disposed = false) (hn : norm uri = .ok nUri)
    (hdoc : alGet s.documents nUri = some doc) (hv : doc.version < v)
    (hfold : cs.foldlM applyContentChange doc.text = .error e) :
    updateDocument norm s ⟨uri, some v, some cs⟩ = (s, [], .error e) ∧
      (e = .invalidChange ∨ e = .invalidPosition) := by
  refine ⟨?_, foldlM_applyContentChange_error hfold⟩
  unfold updateDocument
  simp only [hd, Bool.false_eq_true, if_false, hn, hdoc]
  rw [if_neg (by omega)]
  simp only [hfold]

theorem updateDocument_ok_version {norm : NormFn} {s s' : ClientState} {a : UpdateArgs}
    {ev : List AdapterCall} {d : TextDoc} {nUri : String} {doc : TextDoc}
    (h : updateDocument norm s a = (s', ev, .ok d))
    (hn : norm a.uri = .ok nUri) (hdoc : alGet s.documents nUri = some doc) :
    ∃ v, a.version = some v ∧ doc.version < v ∧ d.version = v ∧
      alGet s'.documents nUri = some d ∧ s'.disposed = s.disposed := by
  unfold updateDocument at h
  cases hdisp : s.disposed with
  | true => rw [hdisp] at h; simp at h
  | false =>
    rw [hdisp] at h
    simp only [Bool.false_eq_true, if_false, hn, hdoc] at h
    cases hver : a.version with
    | none => simp only [hver] at h; simp at h
    | some v =>
      simp only [hver] at h
      by_cases hle : v ≤ doc.version
      · rw [if_pos hle] at h; simp at h
      · rw [if_neg hle] at h
        cases hcs : a.changes with
        | none => simp only [hcs] at h; simp at h
        | some cs =>
          simp only [hcs] at h
          cases hfold : cs.foldlM applyContentChange doc.text with
          | error e1 => simp only [hfold] at h; simp at h
          | ok text =>
            simp only [hfold] at h
            have hs' := congrArg Prod.fst h
            have hd' := congrArg (fun t => t.2.2) h
            simp only at hs' hd'
            injection hd' with hdEq
            refine ⟨v, rfl, by omega, ?_, ?_, ?_⟩
            · rw [← hdEq]
            · rw [← hs', setRecord_documents]
              simp only [alGet_alSet_self]
              rw [← hdEq]
            · rw [← hs', setRecord_disposed]

theorem issueDocSyncOps_queueing (rec : AdapterRec) (ops : List QueuedOp)
    (hstate : rec.state = .registering ∨ rec.state = .initializing) :
    issueDocSyncOps rec ops = ({ rec with operationQueue := rec.operationQueue ++ ops }, []) := by
  induction ops generalizing rec with
  | nil => simp [issueDocSyncOps]
  | cons op rest ih =>
    simp only [issueDocSyncOps, callAdapterHandler]
    rw [if_neg (by simp), if_pos hstate]
    rw [ih { rec with operationQueue := rec.operationQueue ++ [⟨op.operation, op.payload⟩] }
      (by simpa using hstate)]
    simp

/-- C3: document-sync operations issued through `callAdapterHandler`
while the record is `registering` or `initializing` are appended to the
queue in issue order with no handler invoked, and on the transition to
`ready` they are delivered to the handlers exactly once in the same FIFO
order: the flush empties the queue and a repeated flush delivers
nothing. -/
theorem queued_ops_fifo_flush (rec : AdapterRec) (ops : List QueuedOp)
    (hstate : rec.state = .registering ∨ rec.state = .initializing)
    (hq : rec.operationQueue = []) :
    (issueDocSyncOps rec ops).2 = [] ∧
    (issueDocSyncOps rec ops).1.operationQueue = ops ∧
    (resolveInitThen (issueDocSyncOps rec ops).1).2 =
      ops.map (fun q => ⟨rec.languageId, q.operation, q.payload⟩) ∧
    (resolveInitThen (issueDocSyncOps rec ops).1).1.operationQueue = [] ∧
    flushQueuedOperations (resolveInitThen (issueDocSyncOps rec ops).1).1 false =
      ((resolveInitThen (issueDocSyncOps rec ops).1).1, [], []) := by
  rw [issueDocSyncOps_queueing rec ops hstate, hq]
  cases ops with
  | nil => simp [resolveInitThen, flushQueuedOperations]
  | cons op rest =>
    refine ⟨rfl, by simp, ?_, ?_, ?_⟩
    · simp [resolveInitThen, flushQueuedOperations]
    · simp [resolveInitThen, flushQueuedOperations]
    · simp [resolveInitThen, flushQueuedOperations]

/-- C3 witness: two queued operations flushed in order for an
initializing record. -/
theorem queued_ops_fifo_flush_witness :
    ((issueDocSyncOps (recWaiting "go")
        [⟨"openDocument", .closeDoc "u"⟩, ⟨"updateDocument", .closeDoc "v"⟩]).2 = [] ∧
     (issueDocSyncOps (recWaiting "go")
        [⟨"openDocument", .closeDoc "u"⟩, ⟨"updateDocument", .closeDoc "v"⟩]).1.operationQueue =
        [⟨"openDocument", .closeDoc "u"⟩, ⟨"updateDocument", .closeDoc "v"⟩] ∧
     (resolveInitThen (issueDocSyncOps (recWaiting "go")
        [⟨"openDocument", .closeDoc "u"⟩, ⟨"updateDocument", .closeDoc "v"⟩]).1).2 =
        [⟨"go", "openDocument", .closeDoc "u"⟩, ⟨"go", "updateDocument", .closeDoc "v"⟩] ∧
     (resolveInitThen (issueDocSyncOps (recWaiting "go")
        [⟨"openDocument", .closeDoc "u"⟩, ⟨"updateDocument", .closeDoc "v"⟩]).1).1.operationQueue = [] ∧
     flushQueuedOperations (resolveInitThen (issueDocSyncOps (recWaiting "go")
        [⟨"openDocument", .closeDoc "u"⟩, ⟨"updateDocument", .closeDoc "v"⟩]).1).1 false =
      ((resolveInitThen (issueDocSyncOps (recWaiting "go")
        [⟨"openDocument", .closeDoc "u"⟩, ⟨"updateDocument", .closeDoc "v"⟩]).1).1, [], [])) :=
  queued_ops_fifo_flush (recWaiting "go")
    [⟨"openDocument", .closeDoc "u"⟩, ⟨"updateDocument", .closeDoc "v"⟩]
    (Or.inr rfl) rfl

/-- C1: a `updateDocument` call on an open document whose version is not
a number strictly greater than the stored version fails with
`InvalidVersion` leaving the whole client state (in particular the
stored version) unchanged; and after any sequence of successful updates
on one URI the stored version equals the last supplied version, the
versions forming a strictly increasing chain from the initial one. -/
theorem updateDocument_monotonic_versioning :
    (∀ (norm : NormFn) (s : ClientState) (a : UpdateArgs) (nUri : String) (doc : TextDoc),
      s.disposed = false → norm a.uri = .ok nUri → alGet s.documents nUri = some doc →
      (a.version = none ∨ ∃ v, a.version = some v ∧ v ≤ doc.version) →
      updateDocument norm s a = (s, [], .error .invalidVersion)) ∧
    (∀ (norm : NormFn) (uri nUri : String) (us : List UpdateArgs) (s s' : ClientState)
        (doc : TextDoc),
      (∀ u ∈ us, u.uri = uri) → norm uri = .ok nUri → alGet s.documents nUri = some doc →
      runUpdates norm s us = some s' →
      ∃ vs : List Int, us.map (·.version) = vs.map some ∧
        List.Chain' (· < ·) (doc.version :: vs) ∧
        (alGet s'.documents nUri).map (·.version) = (doc.version :: vs).getLast?) := by
  constructor
  · intro norm s a nUri doc hd hn hdoc hbad
    unfold updateDocument
    simp only [hd, Bool.false_eq_true, if_false, hn, hdoc]
    rcases hbad with hnone | ⟨v, hv, hle⟩
    · simp only [hnone]
    · simp only [hv]
      rw [if_pos hle]
  · intro norm uri nUri us
    induction us with
    | nil =>
      intro s s' doc _ hn hdoc hrun
      simp only [runUpdates] at hrun
      obtain rfl : s = s' := Option.some.inj hrun
      refine ⟨[], rfl, by simp, by simp [hdoc]⟩
    | cons a rest ih =>
      intro s s' doc hus hn hdoc hrun
      have ha : a.uri = uri := hus a (by simp)
      rcases hu : updateDocument norm s a with ⟨s1, ev, r⟩
      simp only [runUpdates, hu] at hrun
      cases r with
      | error e => simp at hrun
      | ok d =>
        obtain ⟨v, hver, hlt, hdver, hget1, _⟩ :=
          updateDocument_ok_version hu (ha ▸ hn) hdoc
        obtain ⟨vs, hmap, hchain, hlast⟩ :=
          ih s1 s' d (fun u hu' => hus u (by simp [hu'])) hn hget1 hrun
        refine ⟨v :: vs, ?_, ?_, ?_⟩
        · simp [hver, hmap]
        · rw [List.chain'_cons]
          exact ⟨hlt, hdver ▸ hchain⟩
        · rw [List.getLast?_cons_cons]
          exact hlast.trans (by rw [hdver])

/-- C1 witness: part one applied at a stale version on the one-adapter
fixture; part two applied to a two-update sequence with versions 2
then 5. -/
theorem updateDocument_monotonic_versioning_witness :
    updateDocument normStub sOne ⟨"file:///a", some 1, some []⟩ =
      (sOne, [], .error .invalidVersion) ∧
    (∃ vs : List Int,
      ([⟨"file:///a", some 2, some []⟩, ⟨"file:///a", some 5, some []⟩] : List UpdateArgs).map
          (·.version) = vs.map some ∧
      List.Chain' (· < ·) (docA.version :: vs) ∧
      ((alGet ((runUpdates normStub sOne
          [⟨"file:///a", some 2, some []⟩, ⟨"file:///a", some 5, some []⟩]).getD sOne).documents
          "file:///a").map (·.version) = (docA.version :: vs).getLast?)) :=
  ⟨updateDocument_monotonic_versioning.1 normStub sOne ⟨"file:///a", some 1, some []⟩
      "file:///a" docA rfl rfl rfl (Or.inr ⟨1, rfl, by decide⟩),
   updateDocument_monotonic_versioning.2 normStub "file:///a" "file:///a"
      [⟨"file:///a", some 2, some []⟩, ⟨"file:///a", some 5, some []⟩] sOne
      ((runUpdates normStub sOne
        [⟨"file:///a", some 2, some []⟩, ⟨"file:///a", some 5, some []⟩]).getD sOne)
      docA (by decide) rfl rfl (by rfl)⟩

/-- C2: on an open document, `updateDocument` with an empty change list
and a version strictly greater than the stored one succeeds, leaves the
text unchanged, sets the stored version to the supplied version, and
emits one `updateDocument` adapter call whose changes are a single
full-text change equal to the document's current text. -/
theorem updateDocument_empty_changes (norm : NormFn) (s : ClientState) (uri nUri : String)
    (v : Int) (doc : TextDoc) (rec : AdapterRec)
    (hd : s.disposed = false) (hn : norm uri = .ok nUri)
    (hdoc : alGet s.documents nUri = some doc) (hv : doc.version < v)
    (hrec : alGet s.languages doc.languageId = some rec)
    (hlid : rec.languageId = doc.languageId)
    (hstate : rec.state = .ready) (hh : rec.handlers.updateDocument = true) :
    updateDocument norm s ⟨uri, some v, some []⟩ =
      ({ s with documents := alSet s.documents nUri { doc with version := v } },
       [⟨rec.languageId, "updateDocument",
         .updateDoc doc.uri doc.languageId v doc.text [ChangeJS.obj (some doc.text) none]⟩],
       .ok { doc with version := v }) := by
  unfold updateDocument
  simp only [hd, Bool.false_eq_true, if_false, hn, hdoc]
  rw [if_neg (by omega)]
  simp only [List.foldlM, List.isEmpty]
  simp only [hrec, callAdapterOpt, callAdapterHandler, hstate, hh]
  simp only [pure, Except.pure]
  simp [setRecord, hlid, alSet_eq_of_alGet hrec]

/-- C2 witness: version bump from 1 to 2 with an empty change list on
the one-adapter fixture. -/
theorem updateDocument_empty_changes_witness :
    updateDocument normStub sOne ⟨"file:///a", some 2, some []⟩ =
      ({ sOne with documents := alSet sOne.documents "file:///a" { docA with version := 2 } },
       [⟨"ts", "updateDocument",
         .updateDoc "file:///a" "ts" 2 "hi" [ChangeJS.obj (some "hi") none]⟩],
       .ok { docA with version := 2 }) :=
  updateDocument_empty_changes normStub sOne "file:///a" "file:///a" 2 docA (recReady "ts")
    rfl rfl rfl (by decide) rfl rfl rfl rfl

/-- C10 witness input: a change that is not an object makes the whole
update fail with `InvalidChange` while state and handlers are untouched. -/
theorem updateDocument_atomic_witness :
    updateDocument normStub sOne ⟨"file:///a", some 2, some [ChangeJS.notObject]⟩ =
      (sOne, [], .error .invalidChange) ∧
    (ErrorCode.invalidChange = ErrorCode.invalidChange ∨
      ErrorCode.invalidChange = ErrorCode.invalidPosition) :=
  updateDocument_atomic_on_invalid_change normStub sOne "file:///a" "file:///a" 2
    [ChangeJS.notObject] docA ErrorCode.invalidChange rfl rfl rfl (by decide) (by rfl)

theorem asValidEdit_isSome (edit : TextEditJS) :
    (asValidEdit edit).isSome = isValidTextEdit edit := by
  cases edit with
  | notObject => rfl
  | obj r t =>
    cases r with
    | none => rfl
    | some range =>
      obtain ⟨st, en⟩ := range
      cases st <;> cases en <;> cases t <;> rfl

theorem validateTextEdit_eq (edit : TextEditJS) :
    validateTextEdit edit =
      (match asValidEdit edit with
       | some v => .ok v
       | none => .error .invalidEdit) := by
  cases edit with
  | notObject => rfl
  | obj r t =>
    cases r with
    | none => rfl
    | some range =>
      obtain ⟨st, en⟩ := range
      cases st <;> cases en <;> cases t <;> rfl

theorem mapM_validateTextEdit (edits : List TextEditJS) :
    edits.mapM validateTextEdit =
      (if edits.all isValidTextEdit then .ok (edits.filterMap asValidEdit)
       else .error .invalidEdit) := by
  induction edits with
  | nil => rfl
  | cons e rest ih =>
    rw [List.mapM_cons, validateTextEdit_eq e]
    cases hv : asValidEdit e with
    | none =>
      have hval : isValidTextEdit e = false := by rw [← asValidEdit_isSome, hv]; rfl
      simp only [hv, List.all_cons, hval, Bool.false_and, if_false]
      rfl
    | some v =>
      have hval : isValidTextEdit e = true := by rw [← asValidEdit_isSome, hv]; rfl
      simp only [hv, List.all_cons, hval, Bool.true_and, List.filterMap_cons]
      rw [ih]
      by_cases hall : rest.all isValidTextEdit
      · simp only [hall, if_true]
        rfl
      · simp only [hall, Bool.false_eq_true, if_false]
        rfl

theorem mem_jsOrderedInsert {le : α → α → Bool} {a x : α} {l : List α} :
    x ∈ jsOrderedInsert le a l ↔ x = a ∨ x ∈ l := by
  induction l with
  | nil => simp [jsOrderedInsert]
  | cons b bs ih =>
    by_cases h : le a b
    · simp only [jsOrderedInsert, if_pos h, List.mem_cons]
      try tauto
    · simp only [jsOrderedInsert, if_neg h, List.mem_cons, ih]
      try tauto

theorem mem_jsSort {le : α → α → Bool} {x : α} {l : List α} :
    x ∈ jsSort le l ↔ x ∈ l := by
  induction l with
  | nil => simp [jsSort]
  | cons a bs ih => simp [jsSort, mem_jsOrderedInsert, ih]

theorem pairwise_jsOrderedInsert {le : α → α → Bool} {a : α} {l : List α}
    (hl : l.Pairwise (fun x y => le x y = true))
    (htot : ∀ x ∈ l, le a x = true ∨ le x a = true)
    (htrans : ∀ b ∈ l, ∀ x ∈ l, le a b = true → le b x = true → le a x = true) :
    (jsOrderedInsert le a l).Pairwise (fun x y => le x y = true) := by
  induction l with
  | nil => simp [jsOrderedInsert]
  | cons b bs ih =>
    by_cases h : le a b
    · rw [jsOrderedInsert, if_pos h]
      refine List.Pairwise.cons ?_ hl
      intro x hx
      rcases List.mem_cons.mp hx with rfl | hxbs
      · exact h
      · exact htrans b (by simp) x (by simp [hxbs]) h ((List.pairwise_cons.mp hl).1 x hxbs)
    · rw [jsOrderedInsert, if_neg h]
      have hbs := (List.pairwise_cons.mp hl).2
      refine List.Pairwise.cons ?_ ?_
      · intro x hx
        rcases mem_jsOrderedInsert.mp hx with rfl | hxbs
        · rcases htot b (by simp) with hab | hba
          · exact absurd hab h
          · exact hba
        · exact (List.pairwise_cons.mp hl).1 x hxbs
      · exact ih hbs (fun x hx => htot x (by simp [hx]))
          (fun b2 hb2 x hx => htrans b2 (by simp [hb2]) x (by simp [hx]))

theorem pairwise_jsSort {le : α → α → Bool} {l : List α}
    (htot : ∀ x ∈ l, ∀ y ∈ l, le x y = true ∨ le y x = true)
    (htrans : ∀ x ∈ l, ∀ y ∈ l, ∀ z ∈ l, le x y = true → le y z = true → le x z = true) :
    (jsSort le l).Pairwise (fun x y => le x y = true) := by
  induction l with
  | nil => simp [jsSort]
  | cons a bs ih =>
    rw [jsSort]
    refine pairwise_jsOrderedInsert ?_ ?_ ?_
    · exact ih (fun x hx y hy => htot x (by simp [hx]) y (by simp [hy]))
        (fun x hx y hy z hz => htrans x (by simp [hx]) y (by simp [hy]) z (by simp [hz]))
    · intro x hx
      exact htot a (by simp) x (by simp [mem_jsSort.mp hx])
    · intro b hb x hx
      exact htrans a (by simp) b (by simp [mem_jsSort.mp hb]) x (by simp [mem_jsSort.mp hx])

theorem leRev_iff_numeric {a b : ValidEdit} (ha : numericStart a) (hb : numericStart b) :
    leRev a b = true ↔ revDocPairOk a b := by
  obtain ⟨hal, hac⟩ := ha
  obtain ⟨hbl, hbc⟩ := hb
  obtain ⟨al, hal⟩ := Option.isSome_iff_exists.mp hal
  obtain ⟨ac, hac⟩ := Option.isSome_iff_exists.mp hac
  obtain ⟨bl, hbl⟩ := Option.isSome_iff_exists.mp hbl
  obtain ⟨bc, hbc⟩ := Option.isSome_iff_exists.mp hbc
  unfold leRev compareRangeReverse revDocPairOk startKey
  rw [hal, hac, hbl, hbc]
  by_cases h : bl - al = 0
  · simp only [h, if_true]
    simp
    omega
  · simp only [h, if_false]
    simp
    omega

theorem leRev_total (a b : ValidEdit) : leRev a b = true ∨ leRev b a = true := by
  unfold leRev compareRangeReverse
  cases hal : a.start.line <;> cases hbl : b.start.line <;>
    cases hac : a.start.character <;> cases hbc : b.start.character <;>
      simp only [hal, hbl, hac, hbc] <;> (try split_ifs) <;> simp <;> omega

/-- C6: `applyTextEdits` validates that each edit has a range and a
string `newText` (failing with `InvalidEdit` otherwise), sorts the
edits in reverse document order by `(line, character)` of the range
start position, and applies them to the text in that sorted order: the
function equals the claim-side algorithm, and on edits with numeric
start coordinates the sorted order is pairwise non-increasing in
`(line, character)`. -/
theorem applyTextEdits_algorithm :
    (∀ (text : String) (edits : List TextEditJS),
      applyTextEdits text edits = applyTextEditsClaim text edits) ∧
    (∀ edits : List ValidEdit, (∀ e ∈ edits, numericStart e) →
      (jsSort leRev edits).Pairwise revDocPairOk) := by
  constructor
  · intro text edits
    unfold applyTextEdits applyTextEditsClaim applyTextEditsInOrder
    rw [mapM_validateTextEdit]
    by_cases hall : edits.all isValidTextEdit
    · simp only [hall, if_true]
      rfl
    · simp only [hall, Bool.false_eq_true, if_false]
      rfl
  · intro edits hnum
    have htrans : ∀ x ∈ edits, ∀ y ∈ edits, ∀ z ∈ edits,
        leRev x y = true → leRev y z = true → leRev x z = true := by
      intro x hx y hy z hz hxy hyz
      refine (leRev_iff_numeric (hnum x hx) (hnum z hz)).mpr ?_
      have h1 := (leRev_iff_numeric (hnum x hx) (hnum y hy)).mp hxy
      have h2 := (leRev_iff_numeric (hnum y hy) (hnum z hz)).mp hyz
      unfold revDocPairOk at *
      omega
    have hp := @pairwise_jsSort ValidEdit leRev edits
      (fun x _ y _ => leRev_total x y) htrans
    exact hp.imp_of_mem (fun {x y} hx hy hxy =>
      (leRev_iff_numeric (hnum x (mem_jsSort.mp hx)) (hnum y (mem_jsSort.mp hy))).mp hxy)

/-- C6 witness: a concrete edit list equals the claim-side algorithm and
a concrete two-edit list sorts into reverse document order. -/
theorem applyTextEdits_algorithm_witness :
    applyTextEdits "ab"
        [TextEditJS.obj (some ⟨some ⟨some 0, some 0⟩, some ⟨some 0, some 1⟩⟩) (some "z")] =
      applyTextEditsClaim "ab"
        [TextEditJS.obj (some ⟨some ⟨some 0, some 0⟩, some ⟨some 0, some 1⟩⟩) (some "z")] ∧
    (jsSort leRev [⟨⟨some 1, some 0⟩, ⟨some 1, some 1⟩, "x"⟩,
        ⟨⟨some 0, some 2⟩, ⟨some 0, some 3⟩, "y"⟩]).Pairwise revDocPairOk :=
  ⟨applyTextEdits_algorithm.1 "ab"
      [TextEditJS.obj (some ⟨some ⟨some 0, some 0⟩, some ⟨some 0, some 1⟩⟩) (some "z")],
   applyTextEdits_algorithm.2
      [⟨⟨some 1, some 0⟩, ⟨some 1, some 1⟩, "x"⟩, ⟨⟨some 0, some 2⟩, ⟨some 0, some 3⟩, "y"⟩]
      (by simp [numericStart])⟩

theorem dropWhile_idem (p : α → Bool) (l : List α) :
    (l.dropWhile p).dropWhile p = l.dropWhile p := by
  induction l with
  | nil => simp
  | cons a t ih =>
    by_cases h : p a
    · simp [List.dropWhile_cons, h, ih]
    · simp [List.dropWhile_cons, h]

theorem dropWhile_head_not (p : α → Bool) (l : List α) {x : α}
    (h : (l.dropWhile p).head? = some x) : p x = false := by
  induction l with
  | nil => simp at h
  | cons a t ih =>
    by_cases hp : p a
    · rw [List.dropWhile_cons, if_pos hp] at h
      exact ih h
    · rw [List.dropWhile_cons, if_neg hp] at h
      simp at h
      rw [← h]
      exact Bool.not_eq_true _ ▸ hp

theorem dropWhile_eq_self_of_head (p : α → Bool) (l : List α)
    (h : ∀ x, l.head? = some x → p x = false) : l.dropWhile p = l := by
  cases l with
  | nil => simp
  | cons a t => rw [List.dropWhile_cons, if_neg (by simp [h a rfl])]

theorem jsTrim_idem (s : String) : jsTrim (jsTrim s) = jsTrim s := by
  unfold jsTrim
  simp only
  set w := isJsWhitespace with hw
  set A := s.data.dropWhile w with hA
  set C := A.reverse.dropWhile w with hC
  have hCrevPre : C.reverse.IsPrefix A := by
    obtain ⟨t, ht⟩ := @List.dropWhile_suffix _ A.reverse w
    refine ⟨t.reverse, ?_⟩
    have := congrArg List.reverse ht
    simpa using this
  have h1 : C.reverse.dropWhile w = C.reverse := by
    refine dropWhile_eq_self_of_head w _ ?_
    intro x hx
    obtain ⟨t, ht⟩ := hCrevPre
    cases hcr : C.reverse with
    | nil => rw [hcr] at hx; simp at hx
    | cons c cr =>
      rw [hcr] at hx ht
      simp at hx
      have hAhead : A.head? = some c := by rw [← ht]; rfl
      rw [← hx]
      exact dropWhile_head_not w s.data (hA ▸ hAhead)
  have h2 : C.dropWhile w = C := by
    rw [hC]
    exact dropWhile_idem w A.reverse
  rw [h1]
  simp only [List.reverse_reverse]
  rw [h2]

/-- C7 (amended): `normalizeUri` equals the claim-side algorithm — trim;
a bare path or Windows drive-letter path becomes a `file://` URI with
percent-encoded path; an input with a scheme is re-emitted from the
parse, with drive uppercased and fragment stripped for `file:` URIs
(other schemes keep their fragment); empty, all-whitespace or
un-parseable inputs fail with `InvalidUri`.  Trimming is idempotent, so
normalizing a pre-trimmed input gives the same result, and the bare-path
outputs start with `file://`. -/
theorem normalizeUri_claim_refinement :
    (∀ (env : UriEnv) (uri : Option String),
      normalizeUri env uri = normalizeUriClaim env uri) ∧
    (∀ (env : UriEnv) (u : String),
      normalizeUri env (some u) = normalizeUri env (some (jsTrim u))) ∧
    (∀ (env : UriEnv) (p : String),
      (ensureFileUriFromPath env p).data.take 7 = "file://".data) := by
  refine ⟨?_, ?_, ?_⟩
  · intro env uri
    cases uri with
    | none => rfl
    | some u =>
      unfold normalizeUri normalizeUriClaim
      by_cases h0 : (jsTrim u).data.length = 0
      · simp [h0]
      · simp only [h0, if_false]
        by_cases hwin : isWindowsDrivePath (jsTrim u)
        · simp [hwin]
        · by_cases hsch : hasScheme (jsTrim u)
          · simp [hwin, hsch]
          · simp [hwin, hsch]
  · intro env u
    change (if (jsTrim u).data.length = 0 then _ else _) =
      (if (jsTrim (jsTrim u)).data.length = 0 then _ else _)
    rw [jsTrim_idem]
  · intro env p
    show ("file://".data ++ _ ++ _ : List Char).take 7 = "file://".data
    rw [List.append_assoc]
    exact List.take_left' (by decide)

theorem recordFailure_inv {acc : WEAcc} (h : weInv acc) (uri : String) (reason : Reason)
    (idx : Nat) : weInv (recordFailure acc uri reason idx) := by
  unfold weInv recordFailure at *
  cases hf : acc.failures with
  | nil => rw [hf] at h; simp at h; simp [hf, h]
  | cons f fs => rw [hf] at h; simp at h; simp [hf, h]

theorem handleTextDocumentEdit_inv {norm : NormFn} {dcDefined : Bool} {acc : WEAcc}
    {tdUri : Option String} {editsField : Option (List TextEditJS)} {index : Nat}
    (h : weInv acc) :
    weInv (handleTextDocumentEdit norm dcDefined acc tdUri editsField index).1 := by
  simp only [handleTextDocumentEdit]
  repeat' split
  all_goals first
    | exact h
    | exact recordFailure_inv h _ _ _

theorem processChange_inv {norm : NormFn} {dcDefined : Bool} {acc : WEAcc}
    {change : DocChangeJS} {index : Nat} (h : weInv acc) :
    weInv (processChange norm dcDefined acc change index).1 := by
  simp only [processChange]
  repeat' split
  all_goals first
    | exact h
    | exact recordFailure_inv h _ _ _
    | exact handleTextDocumentEdit_inv h

theorem processDCList_inv {norm : NormFn} {dcDefined : Bool} {acc : WEAcc}
    {l : List DocChangeJS} (h : weInv acc) :
    weInv (processDCList norm dcDefined acc l) := by
  induction l generalizing acc with
  | nil => exact h
  | cons c rest ih =>
    unfold processDCList
    rcases hp : processChange norm dcDefined acc c acc.counter with ⟨acc', thrown⟩
    have hinv : weInv acc' := by
      have := @processChange_inv norm dcDefined acc c acc.counter h
      rw [hp] at this
      exact this
    cases thrown with
    | none => exact ih (by unfold weInv at *; simpa using hinv)
    | some e => exact hinv

theorem processChangesList_inv {norm : NormFn} {dcDefined : Bool} {acc : WEAcc}
    {l : List (String × Option (List TextEditJS))} (h : weInv acc) :
    weInv (processChangesList norm dcDefined acc l).1 := by
  induction l generalizing acc with
  | nil => exact h
  | cons entry rest ih =>
    obtain ⟨uri, editsVal⟩ := entry
    unfold processChangesList
    rcases hp : handleTextDocumentEdit norm dcDefined acc (some uri) (some (editsVal.getD []))
        acc.counter with ⟨acc', thrown⟩
    have hinv : weInv acc' := by
      have := @handleTextDocumentEdit_inv norm dcDefined acc (some uri)
        (some (editsVal.getD [])) acc.counter h
      rw [hp] at this
      exact this
    cases thrown with
    | none => exact ih (by unfold weInv at *; simpa using hinv)
    | some e => exact hinv

theorem applyResult_props (acc2 : WEAcc) (hinv : weInv acc2) :
    ((({ applied := acc2.failures.isEmpty, failures := acc2.failures,
         failureReason := if acc2.failures.isEmpty then none
                          else acc2.failures.head?.map (·.reason),
         failedChange := if acc2.failures.isEmpty then none
                         else some (acc2.failedChangeIndex.getD 0) } : ApplyResult).applied
        = true ↔
      ({ applied := acc2.failures.isEmpty, failures := acc2.failures,
         failureReason := if acc2.failures.isEmpty then none
                          else acc2.failures.head?.map (·.reason),
         failedChange := if acc2.failures.isEmpty then none
                         else some (acc2.failedChangeIndex.getD 0) } : ApplyResult).failures = []) ∧
     ∀ f fs,
       ({ applied := acc2.failures.isEmpty, failures := acc2.failures,
          failureReason := if acc2.failures.isEmpty then none
                           else acc2.failures.head?.map (·.reason),
          failedChange := if acc2.failures.isEmpty then none
                          else some (acc2.failedChangeIndex.getD 0) } : ApplyResult).failures =
           f :: fs →
         ({ applied := acc2.failures.isEmpty, failures := acc2.failures,
            failureReason := if acc2.failures.isEmpty then none
                             else acc2.failures.head?.map (·.reason),
            failedChange := if acc2.failures.isEmpty then none
                            else some (acc2.failedChangeIndex.getD 0) } : ApplyResult).failureReason =
             some f.reason ∧
           ({ applied := acc2.failures.isEmpty, failures := acc2.failures,
              failureReason := if acc2.failures.isEmpty then none
                               else acc2.failures.head?.map (·.reason),
              failedChange := if acc2.failures.isEmpty then none
                              else some (acc2.failedChangeIndex.getD 0) } : ApplyResult).failedChange =
             some f.idx) := by
  constructor
  · simp [List.isEmpty_iff]
  · intro f fs hf
    simp only at hf
    unfold weInv at hinv
    rw [hf] at hinv ⊢
    simp at hinv
    simp [hinv]

/-- C5: whenever `applyWorkspaceEdit` returns a result, `applied` is
true exactly when the failures list is empty, and on failure
`failureReason` is the reason of the first recorded failure and
`failedChange` is the change index that was assigned to that first
failure. -/
theorem applyWorkspaceEdit_first_failure (norm : NormFn) (s s' : ClientState)
    (ev : List AdapterCall) (edit : WorkspaceEditArg) (res : ApplyResult)
    (h : applyWorkspaceEdit norm s edit = (s', ev, .ok res)) :
    (res.applied = true ↔ res.failures = []) ∧
    (∀ f fs, res.failures = f :: fs →
      res.failureReason = some f.reason ∧ res.failedChange = some f.idx) := by
  unfold applyWorkspaceEdit at h
  cases hd : s.disposed with
  | true => rw [hd] at h; simp at h
  | false =>
    rw [hd] at h
    simp only [Bool.false_eq_true, if_false] at h
    cases edit with
    | notObject => simp at h
    | obj dc chs =>
      simp only at h
      have hacc0 : weInv (⟨s, [], [], none, 0⟩ : WEAcc) := rfl
      cases chs with
      | none =>
        cases dc with
        | absent =>
          simp only at h
          have hres := congrArg (fun t => t.2.2) h
          simp only [Except.ok.injEq] at hres
          rw [← hres]
          exact applyResult_props _ hacc0
        | notArray =>
          simp only at h
          have hres := congrArg (fun t => t.2.2) h
          simp only [Except.ok.injEq] at hres
          rw [← hres]
          exact applyResult_props _ hacc0
        | arr l =>
          simp only at h
          have hres := congrArg (fun t => t.2.2) h
          simp only [Except.ok.injEq] at hres
          rw [← hres]
          exact applyResult_props _ (processDCList_inv hacc0)
      | some entries =>
        cases dc with
        | absent =>
          simp only at h
          rcases hstep : processChangesList norm (decide (DCField.absent ≠ DCField.absent))
              ⟨s, [], [], none, 0⟩ entries with ⟨acc2, thrown⟩
          rw [hstep] at h
          have hinv : weInv acc2 := by
            have := @processChangesList_inv norm
              (decide (DCField.absent ≠ DCField.absent)) _ entries hacc0
            rw [hstep] at this
            exact this
          cases thrown with
          | some e => simp at h
          | none =>
            simp only at h
            have hres := congrArg (fun t => t.2.2) h
            simp only [Except.ok.injEq] at hres
            rw [← hres]
            exact applyResult_props _ hinv
        | notArray =>
          simp only at h
          rcases hstep : processChangesList norm (decide (DCField.notArray ≠ DCField.absent))
              ⟨s, [], [], none, 0⟩ entries with ⟨acc2, thrown⟩
          rw [hstep] at h
          have hinv : weInv acc2 := by
            have := @processChangesList_inv norm
              (decide (DCField.notArray ≠ DCField.absent)) _ entries hacc0
            rw [hstep] at this
            exact this
          cases thrown with
          | some e => simp at h
          | none =>
            simp only at h
            have hres := congrArg (fun t => t.2.2) h
            simp only [Except.ok.injEq] at hres
            rw [← hres]
            exact applyResult_props _ hinv
        | arr l =>
          simp only at h
          rcases hstep : processChangesList norm (decide (DCField.arr l ≠ DCField.absent))
              (processDCList norm (decide (DCField.arr l ≠ DCField.absent)) ⟨s, [], [], none, 0⟩ l)
              entries with ⟨acc2, thrown⟩
          rw [hstep] at h
          have hinv : weInv acc2 := by
            have := @processChangesList_inv norm
              (decide (DCField.arr l ≠ DCField.absent)) _ entries
              (@processDCList_inv norm (decide (DCField.arr l ≠ DCField.absent)) _ l hacc0)
            rw [hstep] at this
            exact this
          cases thrown with
          | some e => simp at h
          | none =>
            simp only at h
            have hres := congrArg (fun t => t.2.2) h
            simp only [Except.ok.injEq] at hres
            rw [← hres]
            exact applyResult_props _ hinv

/-- C5 witness: a `documentChanges` entry targeting an unopened URI
yields `applied = false`, `failureReason` "Document not open" and
`failedChange = 0`. -/
theorem applyWorkspaceEdit_first_failure_witness :
    (({ applied := false,
        failures := [⟨"file:///missing", Reason.documentNotOpen, 0⟩],
        failureReason := some Reason.documentNotOpen,
        failedChange := some 0 } : ApplyResult).applied = true ↔
      ({ applied := false,
         failures := [⟨"file:///missing", Reason.documentNotOpen, 0⟩],
         failureReason := some Reason.documentNotOpen,
         failedChange := some 0 } : ApplyResult).failures = []) ∧
    (∀ f fs,
      ({ applied := false,
         failures := [⟨"file:///missing", Reason.documentNotOpen, 0⟩],
         failureReason := some Reason.documentNotOpen,
         failedChange := some 0 } : ApplyResult).failures = f :: fs →
      ({ applied := false,
         failures := [⟨"file:///missing", Reason.documentNotOpen, 0⟩],
         failureReason := some Reason.documentNotOpen,
         failedChange := some 0 } : ApplyResult).failureReason = some f.reason ∧
      ({ applied := false,
         failures := [⟨"file:///missing", Reason.documentNotOpen, 0⟩],
         failureReason := some Reason.documentNotOpen,
         failedChange := some 0 } : ApplyResult).failedChange = some f.idx) :=
  applyWorkspaceEdit_first_failure normStub sOne sOne []
    (.obj (.arr [.tde (some "file:///missing")
      (some [.obj (some ⟨some ⟨some 0, some 0⟩, some ⟨some 0, some 0⟩⟩) (some "x")])]) none)
    { applied := false,
      failures := [⟨"file:///missing", Reason.documentNotOpen, 0⟩],
      failureReason := some Reason.documentNotOpen,
      failedChange := some 0 }
    (by rfl)

theorem dispose_fst_disposed {s : ClientState} (hd : s.disposed = false) :
    (dispose s).1.disposed = true := by
  simp [dispose, hd, finalizeDispose]

theorem dispose_of_disposed {x : ClientState} (h : x.disposed = true) : dispose x = (x, []) := by
  simp [dispose, h]

theorem dispose_fst_eq {s : ClientState} (hd : s.disposed = false) :
    (dispose s).1 = finalizeDispose { s with disposed := true } := by
  simp [dispose, hd]

/-- C8: calling `dispose` N ≥ 1 times leaves the same state as calling
it once and the repeated call performs no cleanup work; after disposal
completes every listener table is empty, so no subscription listener can
fire; and every subsequent host-facing call — `registerLanguage`,
document sync, feature requests (`forward`), `sendRequest`,
`sendNotification`, `applyWorkspaceEdit`, and subscription registration
— fails with `ClientDisposed` without touching state. -/
theorem dispose_idempotent_and_gating (s : ClientState) (hd : s.disposed = false) :
    (∀ n : Nat, disposeIter (n + 1) s = (dispose s).1) ∧
    dispose (dispose s).1 = ((dispose s).1, []) ∧
    (dispose s).1.diagnosticListeners = [] ∧
    (dispose s).1.workspaceListeners = [] ∧
    (dispose s).1.notificationListeners = [] ∧
    (dispose s).1.errorListeners = [] ∧
    (∀ (norm : NormFn) (uri nUri : String), norm uri = .ok nUri →
      emitDiagnostics norm (dispose s).1 uri = .ok []) ∧
    (∀ kind : String, kind.data.length ≠ 0 → emitWorkspace (dispose s).1 kind = .ok []) ∧
    (∀ method : String, notifyClientListeners (dispose s).1 method = []) ∧
    emitAdapterErrorListeners (dispose s).1 = [] ∧
    (∀ a, registerLanguage (dispose s).1 a = ((dispose s).1, [], .error .clientDisposed)) ∧
    (∀ (norm : NormFn) a, openDocument norm (dispose s).1 a =
      ((dispose s).1, [], .error .clientDisposed)) ∧
    (∀ (norm : NormFn) a, updateDocument norm (dispose s).1 a =
      ((dispose s).1, [], .error .clientDisposed)) ∧
    (∀ (norm : NormFn) uri, closeDocument norm (dispose s).1 uri =
      ((dispose s).1, [], .error .clientDisposed)) ∧
    (∀ (norm : NormFn) hn p, forward norm (dispose s).1 hn p =
      ((dispose s).1, [], .error .clientDisposed)) ∧
    (∀ (norm : NormFn) m p, sendRequest norm (dispose s).1 m p =
      ((dispose s).1, [], .error .clientDisposed)) ∧
    (∀ (norm : NormFn) m p, sendNotificationOp norm (dispose s).1 m p =
      ((dispose s).1, [], .error .clientDisposed)) ∧
    (∀ (norm : NormFn) e, applyWorkspaceEdit norm (dispose s).1 e =
      ((dispose s).1, [], .error .clientDisposed)) ∧
    (∀ (norm : NormFn) uri lid, onDiagnostics norm (dispose s).1 uri lid =
      ((dispose s).1, .error .clientDisposed)) ∧
    (∀ m lid, onNotification (dispose s).1 m lid = ((dispose s).1, .error .clientDisposed)) ∧
    (∀ k lid, onWorkspaceEvent (dispose s).1 k lid = ((dispose s).1, .error .clientDisposed)) ∧
    (∀ lid, onError (dispose s).1 lid = ((dispose s).1, .error .clientDisposed)) := by
  have hT : (dispose s).1.disposed = true := dispose_fst_disposed hd
  have hfin := dispose_fst_eq hd
  refine ⟨?_, dispose_of_disposed hT, ?_, ?_, ?_, ?_, ?_, ?_, ?_, ?_, ?_, ?_, ?_, ?_, ?_,
    ?_, ?_, ?_, ?_, ?_, ?_, ?_⟩
  · intro n
    induction n with
    | zero => rfl
    | succ n ih =>
      show (dispose (disposeIter (n + 1) s)).1 = (dispose s).1
      rw [ih, dispose_of_disposed hT]
  · rw [hfin]; rfl
  · rw [hfin]; rfl
  · rw [hfin]; rfl
  · rw [hfin]; rfl
  · intro norm uri nUri h
    rw [hfin]
    simp [emitDiagnostics, h, finalizeDispose, alGet]
  · intro kind hk
    rw [hfin]
    unfold emitWorkspace
    rw [if_neg hk]
    simp [finalizeDispose, alGet]
  · intro method
    rw [hfin]
    simp [notifyClientListeners, finalizeDispose, alGet]
  · rw [hfin]; rfl
  · intro a
    simp [registerLanguage, hT]
  · intro norm a
    simp [openDocument, hT]
  · intro norm a
    simp [updateDocument, hT]
  · intro norm uri
    simp [closeDocument, hT]
  · intro norm hn p
    simp [forward, hT]
  · intro norm m p
    simp [sendRequest, hT]
  · intro norm m p
    simp [sendNotificationOp, hT]
  · intro norm e
    simp [applyWorkspaceEdit, hT]
  · intro norm uri lid
    simp [onDiagnostics, hT]
  · intro m lid
    simp [onNotification, hT]
  · intro k lid
    simp [onWorkspaceEvent, hT]
  · intro lid
    simp [onError, hT]

/-- C8 witness: the gating and idempotence facts applied to the
one-adapter fixture. -/
theorem dispose_idempotent_and_gating_witness :
    disposeIter 2 sOne = (dispose sOne).1 ∧
    dispose (dispose sOne).1 = ((dispose sOne).1, []) ∧
    emitWorkspace (dispose sOne).1 "k" = .ok [] ∧
    emitDiagnostics normStub (dispose sOne).1 "file:///a" = .ok [] ∧
    openDocument normStub (dispose sOne).1 ⟨"file:///a", "ts", none, 1⟩ =
      ((dispose sOne).1, [], .error .clientDisposed) ∧
    sendRequest normStub (dispose sOne).1 "ping" Params.notObject =
      ((dispose sOne).1, [], .error .clientDisposed) := by
  have h := dispose_idempotent_and_gating sOne rfl
  exact ⟨h.1 1, h.2.1, h.2.2.2.2.2.2.2.1 "k" (by decide),
    h.2.2.2.2.2.2.1 normStub "file:///a" "file:///a" rfl,
    h.2.2.2.2.2.2.2.2.2.2.2.1 normStub ⟨"file:///a", "ts", none, 1⟩,
    h.2.2.2.2.2.2.2.2.2.2.2.2.2.2.2.1 normStub "ping" Params.notObject⟩
